import Mathlib

/-!
Verification of the Runner core of ansible-lint (src/lib/ansiblelint/runner.py)
against its natural-language specification.

The embedding translates `runner.py` into Lean: paths and process streams are
strings, the mutable sets of the Python code (`playbooks`, `visited`,
`checked_files`, the `matches` set) become lists managed with explicit
insert-if-absent / dedup operations, and the external collaborators
(`find_children`, the `ansible-playbook --syntax-check` subprocess,
`rules.run`, `os.path.dirname`) are parameters gathered in a `Collab` record.
Code of the repository that is not shipped under src/ (`ansiblelint.errors`,
`ansiblelint.text`, `ansiblelint.file_utils`, `ansiblelint._internal.rules`) is
modelled from the specification; each such definition carries a doc comment
starting with `Modelled from the spec:`.
-/

namespace AnsibleLint

/-- Modelled from the spec: the rule classifications that `runner.py` attaches
to diagnostics.  `AnsibleSyntaxCheckRule` is in src (id "911"); the
`RuntimeErrorRule` and `LoadingFailureRule` classes live in
`ansiblelint._internal.rules`, which is not in src, and are modelled as the
spec's "runtime error" and "loading failure" classifications.  `custom` stands
for any content rule of the external rule collaborator. -/
inductive Rule where
  | ansibleSyntaxCheck
  | runtimeError
  | loadingFailure
  | custom (id : String)
deriving DecidableEq, Repr

/-- The rule identifier used by the spec's ordering ("rule-identifier").
"911" is `AnsibleSyntaxCheckRule.id` from src; the other two ids belong to
classes outside src and only need to be fixed strings here. -/
def ruleId : Rule → String
  | .ansibleSyntaxCheck => "911"
  | .runtimeError => "999"
  | .loadingFailure => "901"
  | .custom i => i

/-- Modelled from the spec: `MatchError` from `ansiblelint.errors` (not in
src).  Spec section 3, Diagnostic: attributes `message`, `filename`, `line`,
`column`, `rule`, `details`; `message`/`filename`/`column` may be null;
equality holds iff all attributes are equal.  The constructor stores the
fields as given (spec section 4.2 steps 4-6 describe null fields surviving
into the Diagnostic). -/
structure MatchError where
  message : Option String
  filename : Option String
  linenumber : Nat
  column : Option Nat
  rule : Rule
  details : String
deriving DecidableEq, Repr

/-- The result of one external syntax-check process invocation
(`subprocess.CompletedProcess`): exit code and captured streams. -/
structure CompletedProcess where
  returncode : Int
  stdout : String
  stderr : String

/-- One entry of the working-file list of `Runner.run` (a Python dict with
keys `path`, `type` and, for the seed entries, `absolute_directory`).
Children returned by `find_children` carry whatever fields the collaborator
put in them; dict equality is full record equality (used by the dedup step). -/
structure FileDict where
  path : String
  type : String
  absolute_directory : Option String
deriving DecidableEq, Repr

/-- A node of the discovery graph: the `(path, kind)` pairs stored in
`Runner.playbooks`. -/
abbrev PB := String × String

/-- States of the ANSI-escape scanner: ordinary text, just after ESC, inside a
CSI sequence. -/
inductive AnsiSt where
  | norm
  | esc
  | csi

/-- Modelled from the spec: `strip_ansi_escape` from `ansiblelint.text` (not
in src).  Spec section 4.2: both streams "possibly containing ANSI escape
sequences that must be stripped before matching or concatenation".  The
scanner removes ESC-[ ... final-byte control sequences and lone ESC prefixes
and keeps everything else. -/
def stripAnsiAux : AnsiSt → List Char → List Char
  | _, [] => []
  | .norm, c :: r => if c = '\x1b' then stripAnsiAux .esc r else c :: stripAnsiAux .norm r
  | .esc, c :: r => if c = '[' then stripAnsiAux .csi r else stripAnsiAux .norm r
  | .csi, c :: r =>
      if 0x40 ≤ c.toNat ∧ c.toNat ≤ 0x7e then stripAnsiAux .norm r else stripAnsiAux .csi r

/-- Modelled from the spec: ANSI escape stripping, entry point. -/
def stripAnsiEscape (s : List Char) : List Char := stripAnsiAux .norm s

/-- The captures of `Runner._ansible_syntax_check_re`: title, filename, line
and column. -/
structure MatchRes where
  title : String
  filename : String
  line : Nat
  col : Nat
deriving DecidableEq, Repr

/-- Strip a literal from the front of a character list; `none` when the list
does not start with it.  (Embeds matching a literal piece of the regex.) -/
def dropLit : List Char → List Char → Option (List Char)
  | [], s => some s
  | _ :: _, [] => none
  | l :: ls, c :: cs => if c = l then dropLit ls cs else none

/-- Numeric value of a digit run, as `int()` reads the regex captures.
Digits are modelled as ASCII 0-9. -/
def natOfDigits (l : List Char) : Nat := l.foldl (fun a c => 10 * a + (c.toNat - 48)) 0

/-- Match the tail part `': line (?P<line>\d+), column (?P<column>\d+)` of
`Runner._ansible_syntax_check_re` at the head of the list: the closing quote,
`: line `, one or more digits, `, column `, one or more digits; arbitrary
trailing text is allowed. -/
def parseLoc (l : List Char) : Option (Nat × Nat) :=
  match dropLit ("': line ".data) l with
  | none => none
  | some r1 =>
    let d1 := r1.takeWhile Char.isDigit
    if d1 = [] then none
    else
      match dropLit (", column ".data) (r1.dropWhile Char.isDigit) with
      | none => none
      | some r2 =>
        let d2 := r2.takeWhile Char.isDigit
        if d2 = [] then none else some (natOfDigits d1, natOfDigits d2)

/-- The greedy `(?P<filename>.*)` capture (DOTALL): the filename extends to
the last position of the remaining text where `': line N, column M` matches;
returns the filename characters and the two numbers. -/
def findLastLoc : List Char → Option (List Char × Nat × Nat)
  | [] => none
  | c :: rest =>
    match findLastLoc rest with
    | some (fn, n, k) => some (c :: fn, n, k)
    | none =>
      match parseLoc (c :: rest) with
      | some (n, k) => some ([], n, k)
      | none => none

/-- Attempt `Runner._ansible_syntax_check_re` at the current position (which
the caller guarantees to be a line start): `ERROR! `, then the title (the rest
of that line), then a blank line and `The error appears to be in '`, then the
greedy filename/line/column tail. -/
def matchAt (s : List Char) : Option MatchRes :=
  match dropLit ("ERROR! ".data) s with
  | none => none
  | some r1 =>
    let title := r1.takeWhile (fun c => c ≠ '\n')
    match dropLit ("\n\nThe error appears to be in '".data) (r1.dropWhile (fun c => c ≠ '\n')) with
    | none => none
    | some tail =>
      match findLastLoc tail with
      | some (fn, n, k) => some ⟨String.mk title, String.mk fn, n, k⟩
      | none => none

/-- `re.search` with `re.MULTILINE`: try the pattern at the start of the text
and after every newline, leftmost position first.  The flag records whether
the current position is a line start. -/
def searchAux : Bool → List Char → Option MatchRes
  | _, [] => none
  | atLS, c :: rest =>
    match (if atLS then matchAt (c :: rest) else none) with
    | some m => some m
    | none => searchAux (c = '\n') rest

/-- `Runner._ansible_syntax_check_re.search`: the regex
`^ERROR! (?P<title>[^\n]*)\n\nThe error appears to be in
'(?P<filename>.*)': line (?P<line>\d+), column (?P<column>\d+)`
with MULTILINE and DOTALL, applied to the stripped stderr. -/
def searchErr (s : List Char) : Option MatchRes := searchAux true s

/-- The `details` text of `Runner._parse_ansible_syntax_check`: stderr, then
stdout on a new line when both are non-empty, else whichever is non-empty
(both already stripped). -/
def mkDetails (e o : List Char) : String :=
  String.mk (if e ≠ [] then (if o ≠ [] then e ++ '\n' :: o else e) else o)

/-- The synthesized message for an unexpected exit code
(f-string in `Runner._parse_ansible_syntax_check`). -/
def synthMsg (rc : Int) : String :=
  "Ansible --syntax-check reported unexpected error code " ++ toString rc

/-- `if not message:` of the non-4 branch: Python replaces a missing or empty
(falsy) captured title by the synthesized message. -/
def fallbackMsg (rc : Int) : Option String → Option String
  | none => some (synthMsg rc)
  | some s => if s = "" then some (synthMsg rc) else some s

/-- `Runner._parse_ansible_syntax_check`: convert one completed syntax-check
process into a list of MatchErrors (empty for exit code 0, one element
otherwise).  Exit code 4 is classified as the syntax-check-failed rule,
anything else as the runtime-error rule with a synthesized message when no
title was captured. -/
def parseAnsibleSyntaxCheck (run : CompletedProcess) : List MatchError :=
  if run.returncode ≠ 0 then
    let stderrC := stripAnsiEscape run.stderr.data
    let stdoutC := stripAnsiEscape run.stdout.data
    let details := mkDetails stderrC stdoutC
    let res := searchErr stderrC
    let message : Option String := res.map (fun r => r.title)
    let filename : Option String := res.map (fun r => r.filename)
    let linenumber : Nat := match res with | some r => r.line | none => 0
    let column : Option Nat := res.map (fun r => r.col)
    if run.returncode = 4 then
      [{ message := message, filename := filename, linenumber := linenumber,
         column := column, rule := Rule.ansibleSyntaxCheck, details := details }]
    else
      [{ message := fallbackMsg run.returncode message, filename := filename,
         linenumber := linenumber, column := column, rule := Rule.runtimeError,
         details := details }]
  else []

/-- Three-way comparison of naturals. -/
def cmpN (a b : Nat) : Ordering := if a < b then .lt else if b < a then .gt else .eq

/-- Three-way comparison of characters (by code point). -/
def cmpChar (a b : Char) : Ordering := cmpN a.toNat b.toNat

/-- Lexicographic three-way comparison of character lists. -/
def cmpCL : List Char → List Char → Ordering
  | [], [] => .eq
  | [], _ :: _ => .lt
  | _ :: _, [] => .gt
  | a :: as, b :: bs => (cmpChar a b).then (cmpCL as bs)

/-- Lexicographic three-way comparison of strings. -/
def cmpStr (a b : String) : Ordering := cmpCL a.data b.data

/-- Comparison on optional values with `none` (the spec's null/unknown)
sorting first. -/
def cmpOpt {α : Type} (c : α → α → Ordering) : Option α → Option α → Ordering
  | none, none => .eq
  | none, some _ => .lt
  | some _, none => .gt
  | some a, some b => c a b

/-- Chain two comparators lexicographically: the second decides ties of the
first. -/
def lexThen {α : Type} (c1 c2 : α → α → Ordering) (a b : α) : Ordering :=
  (c1 a b).then (c2 a b)

/-- Compare through a projection. -/
def onF {α β : Type} (f : α → β) (c : β → β → Ordering) (a b : α) : Ordering :=
  c (f a) (f b)

/-- Modelled from the spec: the Diagnostic ordering of `MatchError.__lt__`
(`ansiblelint.errors`, not in src).  Spec section 3: "total order by
`(filename, line, column, rule-identifier, message)` with `null`/unknown
values sorting first". -/
def diagCmp : MatchError → MatchError → Ordering :=
  lexThen (onF MatchError.filename (cmpOpt cmpStr))
    (lexThen (onF MatchError.linenumber cmpN)
      (lexThen (onF MatchError.column (cmpOpt cmpN))
        (lexThen (onF (fun m => ruleId m.rule) cmpStr)
          (onF MatchError.message (cmpOpt cmpStr)))))

/-- The non-strict Diagnostic order used for sorting. -/
def diagLe (a b : MatchError) : Prop := diagCmp a b ≠ .gt

instance : DecidableRel diagLe :=
  fun a b => inferInstanceAs (Decidable (diagCmp a b ≠ .gt))

/-- Keep the first occurrence of each element, dropping elements of `seen`
(worker of `dedupKeepFirst`). -/
def dedupSeen {α : Type} [DecidableEq α] : List α → List α → List α
  | _, [] => []
  | seen, x :: xs =>
    if x ∈ seen then dedupSeen seen xs else x :: dedupSeen (x :: seen) xs

/-- Python-set deduplication of an accumulation sequence: keep the first
occurrence of each element (this is the dedup of `set(...)` as well as the
explicit `value not in files[:n]` dedup of the working-file list). -/
def dedupKeepFirst {α : Type} [DecidableEq α] (l : List α) : List α := dedupSeen [] l

/-- `sorted(matches)` of `Runner.run`: the accumulated diagnostics are
deduplicated as a set and sorted by the Diagnostic order (the sort is stable,
as Python's `sorted` is, so elements whose compared fields tie keep their
accumulation order). -/
def sortResults (l : List MatchError) : List MatchError :=
  List.insertionSort diagLe (dedupKeepFirst l)

/-- `Runner.is_excluded`: true iff the path starts with one of the registered
exclusion prefixes (`str.startswith`, over character lists). -/
def isExcluded (excl : List String) (p : String) : Bool :=
  excl.any (fun pre => pre.data.isPrefixOf p.data)

/-- Modelled from the spec: `normpath` from `ansiblelint.file_utils` (not in
src).  Spec section 4.3 step 1 describes the working-file list as "recording
each task's path", and calls path normalization an external concern, so the
model records the path unchanged. -/
def normpath (p : String) : String := p

/-- `Runner._update_exclude_paths`: register both the (externally expanded)
exclusion paths and their absolute forms; an empty argument registers
nothing.  `abspath` stands for `os.path.abspath`. -/
def mkExcludePaths (expanded : List String) (abspath : String → String) : List String :=
  if expanded = [] then [] else expanded ++ expanded.map abspath

/-- `os.path.join(playbook, '')` of the role branch of `Runner.__init__`:
ensure a trailing separator. -/
def joinRole (p : String) : String :=
  if ("/".data).isSuffixOf p.data then p else p ++ "/"

/-- The Runner state: the persistent `(path, kind)` task set, the root
directory, the registered exclusion prefixes and the persistent checked-files
set.  Python's sets are lists here, managed insert-if-absent; `tags`,
`skip_list` and `verbosity` are omitted because they are only passed through
to the external rule collaborator (absorbed into `Collab.rulesRun`). -/
structure Runner where
  playbooks : List PB
  playbook_dir : String
  exclude_paths : List String
  checked_files : List String
deriving DecidableEq, Repr

/-- `Runner.__init__`: classify the root target (directory = role; a path
ending in `meta/main.yml` = meta; anything else = playbook), derive the root
directory, register the exclusions and adopt the supplied checked-files set
(or start an empty one).  `isdir` stands for the `os.path.isdir(playbook)`
fact and `dirname` for `os.path.dirname`. -/
def Runner.init (isdir : Bool) (dirname abspath : String → String)
    (expandedExcludes : List String) (playbook : String)
    (checked : Option (List String)) : Runner :=
  if isdir then
    { playbooks := [(joinRole playbook, "role")], playbook_dir := playbook,
      exclude_paths := mkExcludePaths expandedExcludes abspath,
      checked_files := checked.getD [] }
  else
    { playbooks := [(playbook,
        if ("meta/main.yml".data).isSuffixOf playbook.data then "meta" else "playbook")],
      playbook_dir := dirname playbook,
      exclude_paths := mkExcludePaths expandedExcludes abspath,
      checked_files := checked.getD [] }

/-- The external collaborators consumed by one run: the discovery collaborator
`find_children`, the external syntax-check process, the rule collaborator
`rules.run` (with the Runner's tag filter and skip list already applied, as
they are opaque pass-through arguments), and `os.path.dirname`. -/
structure Collab where
  findChildren : PB → String → Except MatchError (List FileDict)
  syntaxCheck : String → CompletedProcess
  rulesRun : FileDict → List MatchError
  dirname : String → String

/-- Set-insert on the task list (Python `set.add`). -/
def insertPB (l : List PB) (x : PB) : List PB := if x ∈ l then l else l ++ [x]

/-- The evolving state of `Runner._emit_matches`: the persistent task set
`pbs` (`self.playbooks`), the working-file list being appended to, the
yielded loading-failure diagnostics, and `expanded` — the args on which
`find_children` has been called, in call order.  Membership in `expanded` is
exactly membership in the Python local `visited` set. -/
structure EmitSt where
  pbs : List PB
  files : List FileDict
  errs : List MatchError
  expanded : List PB

/-- The inner child loop of `_emit_matches`: an excluded child is dropped
before it touches anything; otherwise its `(path, type)` enters the task set
and the child record is appended to the working-file list. -/
def procChild (excl : List String) (st : EmitSt) (ch : FileDict) : EmitSt :=
  if isExcluded excl ch.path then st
  else { st with pbs := insertPB st.pbs (ch.path, ch.type), files := st.files ++ [ch] }

/-- Expanding one arg of `_emit_matches`: ask the discovery collaborator for
its children and fold them in, or convert a loading failure into one
diagnostic tagged with the loading-failure rule; either way the arg is marked
visited. -/
def procArg (c : Collab) (excl : List String) (pdir : String) (st : EmitSt) (arg : PB) : EmitSt :=
  match c.findChildren arg pdir with
  | .ok children =>
      let st1 := children.foldl (procChild excl) st
      { st1 with expanded := st1.expanded ++ [arg] }
  | .error e =>
      { st with errs := st.errs ++ [{ e with rule := Rule.loadingFailure }],
                expanded := st.expanded ++ [arg] }

/-- The `while visited != self.playbooks` loop of `_emit_matches`: take a
snapshot of the unvisited tasks, expand each, and repeat.  `visited ⊆ pbs`
holds throughout in the Python code, so the stop test is `pbs ⊆ visited`.
The loop consumes explicit fuel; theorems about full runs either hold for
every fuel or assume enough fuel for the loop to reach its fixpoint. -/
def emitLoop (c : Collab) (excl : List String) (pdir : String) : Nat → EmitSt → EmitSt
  | 0, st => st
  | fuel + 1, st =>
    if st.pbs.all (fun x => decide (x ∈ st.expanded)) then st
    else
      let args := st.pbs.filter (fun x => decide (x ∉ st.expanded))
      emitLoop c excl pdir fuel (args.foldl (procArg c excl pdir) st)

/-- The discovery state at the top of `Runner.run`: the (persistent) task set
and the working-file list seeded with the non-role, non-excluded root tasks
(each recording its path, its kind, and `os.path.dirname` of its path as
`absolute_directory`); nothing yielded, nothing expanded yet. -/
def emitInit (r : Runner) (c : Collab) : EmitSt :=
  { pbs := r.playbooks,
    files := r.playbooks.filterMap (fun pb =>
      if isExcluded r.exclude_paths pb.1 || pb.2 = "role" then none
      else some { path := normpath pb.1, type := pb.2,
                  absolute_directory := some (c.dirname pb.1) }),
    errs := [], expanded := [] }

/-- The loading-failure diagnostic produced by expanding `arg`, if its
`find_children` call fails. -/
def errOf (c : Collab) (pdir : String) (arg : PB) : Option MatchError :=
  match c.findChildren arg pdir with
  | .ok _ => none
  | .error e => some { e with rule := Rule.loadingFailure }

/-- The per-file body of the `for file in files` loop of `Runner.run`: a
playbook-typed file is first given to the external syntax checker (whose
parsed diagnostics are folded in when it fails), then every file is given to
the rule collaborator; the accumulator carries (diagnostics, syntax-checked
paths, rule-evaluated files). -/
def runStep (c : Collab) (acc : List MatchError × List String × List FileDict)
    (f : FileDict) : List MatchError × List String × List FileDict :=
  let msc :=
    if f.type = "playbook" then
      let res := c.syntaxCheck f.path
      ((if res.returncode ≠ 0 then acc.1 ++ parseAnsibleSyntaxCheck res else acc.1),
       acc.2.1 ++ [f.path])
    else (acc.1, acc.2.1)
  (msc.1 ++ c.rulesRun f, msc.2, acc.2.2 ++ [f])

/-- Python `set.update`: insert each path not already present. -/
def insertAll (s : List String) (xs : List String) : List String :=
  xs.foldl (fun t x => if x ∈ t then t else t ++ [x]) s

/-- Everything one `Runner.run` call produces and touches: the discovery
output (the working-file list as built), the yielded loading-failure
diagnostics, the expansion log, the files surviving dedup and the
checked-files filter, the paths handed to the external syntax checker, the
files handed to the rule collaborator, the accumulated and the final sorted
diagnostics, and the Runner state after the call. -/
structure RunTrace where
  discovered : List FileDict
  emitErrs : List MatchError
  expanded : List PB
  processed : List FileDict
  syntaxChecked : List String
  rulesEvaluated : List FileDict
  matchesAcc : List MatchError
  result : List MatchError
  runnerAfter : Runner

/-- `Runner.run`, instrumented: seed the working-file list with the non-role,
non-excluded root tasks; run discovery; dedup the working-file list and drop
files already checked; per file run the syntax check (playbooks only) and the
rule collaborator; record the processed paths in the checked-files set; and
return the deduplicated, sorted diagnostics. -/
def Runner.runT (r : Runner) (c : Collab) (fuel : Nat) : RunTrace :=
  let st := emitLoop c r.exclude_paths r.playbook_dir fuel (emitInit r c)
  let files3 := (dedupKeepFirst st.files).filter (fun f => decide (f.path ∉ r.checked_files))
  let acc := files3.foldl (runStep c) (st.errs, [], [])
  let rAfter : Runner :=
    { r with playbooks := st.pbs,
             checked_files := insertAll r.checked_files (files3.map (fun f => f.path)) }
  { discovered := st.files, emitErrs := st.errs, expanded := st.expanded,
    processed := files3, syntaxChecked := acc.2.1, rulesEvaluated := acc.2.2,
    matchesAcc := acc.1, result := sortResults acc.1, runnerAfter := rAfter }

/-- `Runner.run` proper: the sorted diagnostics and the updated Runner. -/
def Runner.run (r : Runner) (c : Collab) (fuel : Nat) : List MatchError × Runner :=
  ((r.runT c fuel).result, (r.runT c fuel).runnerAfter)

/-- A heap of checked-files sets, for the aliasing behavior of
`self.checked_files = checked_files`: `tbl` maps a reference to the set it
holds, `next` is the next fresh reference. -/
structure Store where
  tbl : Nat → List String
  next : Nat

/-- Read the set a reference holds. -/
def Store.getRef (st : Store) (n : Nat) : List String := st.tbl n

/-- Overwrite the set a reference holds (in-place mutation of the shared
object). -/
def Store.setRef (st : Store) (n : Nat) (v : List String) : Store :=
  { st with tbl := fun m => if m = n then v else st.tbl m }

/-- A Runner whose checked-files set lives in the store: the Python object
reference `self.checked_files`. -/
structure RunnerS where
  playbooks : List PB
  playbook_dir : String
  exclude_paths : List String
  checkedRef : Nat

/-- `Runner.__init__` at the store level: a supplied checked-files set is
adopted by reference (the very object, not a copy); `None` allocates a fresh
empty set. -/
def RunnerS.init (isdir : Bool) (dirname abspath : String → String)
    (expandedExcludes : List String) (playbook : String)
    (checkedRef : Option Nat) (st : Store) : RunnerS × Store :=
  let core := Runner.init isdir dirname abspath expandedExcludes playbook none
  match checkedRef with
  | some n =>
      ({ playbooks := core.playbooks, playbook_dir := core.playbook_dir,
         exclude_paths := core.exclude_paths, checkedRef := n }, st)
  | none =>
      ({ playbooks := core.playbooks, playbook_dir := core.playbook_dir,
         exclude_paths := core.exclude_paths, checkedRef := st.next },
       { tbl := fun m => if m = st.next then [] else st.tbl m, next := st.next + 1 })

/-- The plain Runner a store-level Runner denotes, reading its checked set
through its reference. -/
def RunnerS.toRunner (r : RunnerS) (st : Store) : Runner :=
  { playbooks := r.playbooks, playbook_dir := r.playbook_dir,
    exclude_paths := r.exclude_paths, checked_files := st.getRef r.checkedRef }

/-- `Runner.run` at the store level: run, then write the grown checked set
back through the shared reference. -/
def RunnerS.runS (r : RunnerS) (c : Collab) (fuel : Nat) (st : Store) :
    List MatchError × RunnerS × Store :=
  let t := (r.toRunner st).runT c fuel
  (t.result,
   { r with playbooks := t.runnerAfter.playbooks },
   st.setRef r.checkedRef t.runnerAfter.checked_files)

/-- The path a file contributes to the syntax-checked log: playbook-typed
files only. -/
def scOf (f : FileDict) : Option String :=
  if f.type = "playbook" then some f.path else none

/-- The diagnostics one processed file contributes to the accumulated result:
the parsed syntax-check output for a playbook-typed file whose checker run
failed, followed by the rule collaborator's diagnostics. -/
def fileContrib (c : Collab) (f : FileDict) : List MatchError :=
  (if f.type = "playbook" ∧ (c.syntaxCheck f.path).returncode ≠ 0
   then parseAnsibleSyntaxCheck (c.syntaxCheck f.path) else []) ++ c.rulesRun f

/-- Concrete scenario: the child records of a two-node cyclic reference graph
(`site.yml` references `tasks.yml`, which references `site.yml` back). -/
def wTasksChild : FileDict := { path := "tasks.yml", type := "tasks", absolute_directory := none }

/-- Concrete scenario: the back-reference child. -/
def wSiteChild : FileDict := { path := "site.yml", type := "playbook", absolute_directory := none }

/-- Concrete scenario: collaborators over the cyclic two-node graph; the
syntax checker always fails with exit code 4 and unstructured stderr, and the
rule collaborator reports one finding per file. -/
def wCollab : Collab :=
  { findChildren := fun pb _ =>
      if pb = ("site.yml", "playbook") then .ok [wTasksChild]
      else if pb = ("tasks.yml", "tasks") then .ok [wSiteChild]
      else .ok [],
    syntaxCheck := fun _ => ⟨4, "", "boom\n"⟩,
    rulesRun := fun f =>
      [{ message := some ("rule hit " ++ f.path), filename := some f.path,
         linenumber := 1, column := none, rule := Rule.custom "502", details := "" }],
    dirname := fun _ => "" }

/-- Concrete scenario: a Runner rooted at the playbook `site.yml` with no
exclusions and a fresh checked-files set. -/
def wRunner : Runner := Runner.init false (fun _ => "") id [] "site.yml" none

/-- Concrete scenario: the root seed entry of `wRunner`. -/
def wSeed : FileDict := { path := "site.yml", type := "playbook", absolute_directory := some "" }

/-- Concrete scenario: the finite node universe of the cyclic graph. -/
def wUniverse : List PB := [("site.yml", "playbook"), ("tasks.yml", "tasks")]

/-- Concrete scenario: the loading failure raised by a discovery collaborator
(its rule is overwritten with the loading-failure rule when it is yielded). -/
def xErr : MatchError :=
  { message := some "failed to load", filename := some "roles/meta/main.yml",
    linenumber := 0, column := none, rule := Rule.custom "0", details := "" }

/-- Concrete scenario: collaborators whose discovery always fails with
`xErr`; the rule collaborator reports nothing. -/
def xCollab : Collab :=
  { findChildren := fun _ _ => .error xErr,
    syntaxCheck := fun _ => ⟨0, "", ""⟩,
    rulesRun := fun _ => [],
    dirname := fun _ => "" }

/-- Concrete scenario: a Runner rooted at a meta file whose discovery fails. -/
def xRunner : Runner := Runner.init false (fun _ => "") id [] "roles/meta/main.yml" none

/-- Concrete scenario: a child inside an excluded directory. -/
def vVendorChild : FileDict := { path := "vendor/x.yml", type := "tasks", absolute_directory := none }

/-- Concrete scenario: collaborators whose root discovery proposes one
excluded and one ordinary child. -/
def vCollab : Collab :=
  { findChildren := fun pb _ =>
      if pb = ("site.yml", "playbook") then .ok [vVendorChild, wTasksChild] else .ok [],
    syntaxCheck := fun _ => ⟨4, "", "boom\n"⟩,
    rulesRun := fun f =>
      [{ message := some "finding", filename := some f.path, linenumber := 2,
         column := none, rule := Rule.custom "503", details := "" }],
    dirname := fun _ => "" }

/-- Concrete scenario: a Runner that excludes the `vendor/` prefix (also
registered in an absolute form). -/
def vRunner : Runner :=
  Runner.init false (fun _ => "") (fun p => "/abs/" ++ p) ["vendor/"] "site.yml" none

/-- Concrete scenario: two diagnostics that agree on every field the
Diagnostic order compares and differ only in `details`. -/
def dA : MatchError :=
  { message := some "same", filename := some "a.yml", linenumber := 3, column := none,
    rule := Rule.custom "502", details := "first detail" }

/-- Concrete scenario: the order-equivalent twin of `dA`. -/
def dB : MatchError :=
  { message := some "same", filename := some "a.yml", linenumber := 3, column := none,
    rule := Rule.custom "502", details := "second detail" }

/-- Concrete scenario: an empty store. -/
def wStore : Store := { tbl := fun _ => [], next := 0 }

/-- Concrete scenario: a store-level Runner adopting the checked set held at
reference 5. -/
def wRunnerS : RunnerS :=
  (RunnerS.init false (fun _ => "") id [] "site.yml" (some 5) wStore).1

/-- The laws a comparator needs to sort with: swapping the arguments swaps
the outcome, strict outcomes chain transitively, and a tie makes its two
sides interchangeable as left argument. -/
structure CmpLaws {α : Type} (c : α → α → Ordering) : Prop where
  swap_eq : ∀ a b, (c a b).swap = c b a
  lt_trans : ∀ a b d, c a b = .lt → c b d = .lt → c a d = .lt
  eq_congr : ∀ a b d, c a b = .eq → c b d = c a d

/-- A comparator whose ties are equalities (a linear comparator). -/
structure CmpLin {α : Type} (c : α → α → Ordering) : Prop where
  swap_eq : ∀ a b, (c a b).swap = c b a
  lt_trans : ∀ a b d, c a b = .lt → c b d = .lt → c a d = .lt
  eq_iff : ∀ a b, c a b = .eq ↔ a = b

/-- The stderr text of the repository's own parser test
(src/test/test_runner.py). -/
def testStderr : String :=
  "[WARNING]: No inventory was parsed, only implicit localhost is available\n" ++
  "[WARNING]: provided hosts list is empty, only localhost is available. Note that the implicit localhost does not match 'all'\n" ++
  "ERROR! conflicting action statements: debug, always_run\n" ++
  "\n" ++
  "The error appears to be in '/foo/example.yml': line 47, column 7, but may\n" ++
  "be elsewhere in the file depending on the exact syntax problem.\n" ++
  "\n" ++
  "The offending line appears to be:\n" ++
  "\n" ++
  "\n" ++
  "    - name: always run\n" ++
  "      ^ here\n"

theorem thenEqEq {o1 o2 : Ordering} : o1.then o2 = .eq ↔ o1 = .eq ∧ o2 = .eq := by
  cases o1 <;> simp [Ordering.then]

theorem thenEqLt {o1 o2 : Ordering} : o1.then o2 = .lt ↔ o1 = .lt ∨ (o1 = .eq ∧ o2 = .lt) := by
  cases o1 <;> simp [Ordering.then]

theorem thenSwap {o1 o2 : Ordering} : (o1.then o2).swap = o1.swap.then o2.swap := by
  cases o1 <;> rfl

theorem neGtIff {o : Ordering} : o ≠ .gt ↔ o = .lt ∨ o = .eq := by cases o <;> simp

theorem CmpLin.laws {α : Type} {c : α → α → Ordering} (h : CmpLin c) : CmpLaws c := by
  refine ⟨h.swap_eq, h.lt_trans, fun a b d hab => ?_⟩
  rw [h.eq_iff] at hab
  subst hab
  rfl

theorem CmpLaws.eq_congr_right {α : Type} {c : α → α → Ordering} (h : CmpLaws c)
    (a b d : α) (hbd : c b d = .eq) : c a b = c a d := by
  have h2 : c d a = c b a := h.eq_congr b d a hbd
  calc c a b = (c b a).swap := by rw [h.swap_eq]
    _ = (c d a).swap := by rw [h2]
    _ = c a d := h.swap_eq d a

theorem cmpN_eq_lt {a b : Nat} : cmpN a b = .lt ↔ a < b := by
  unfold cmpN
  split_ifs with h1 h2 <;> simp_all

theorem cmpN_eq_eq {a b : Nat} : cmpN a b = .eq ↔ a = b := by
  unfold cmpN
  split_ifs with h1 h2 <;> simp_all <;> omega

theorem cmpN_lin : CmpLin cmpN := by
  refine ⟨fun a b => ?_, fun a b d h1 h2 => ?_, fun a b => cmpN_eq_eq⟩
  · unfold cmpN
    split_ifs <;> simp_all [Ordering.swap] <;> omega
  · rw [cmpN_eq_lt] at *
    omega

theorem cmpChar_lin : CmpLin cmpChar := by
  refine ⟨fun a b => cmpN_lin.swap_eq _ _, fun a b d => cmpN_lin.lt_trans _ _ _,
    fun a b => ?_⟩
  unfold cmpChar
  rw [cmpN_eq_eq]
  exact ⟨fun h => Char.eq_of_val_eq (UInt32.eq_of_val_eq (Fin.ext h)), fun h => by rw [h]⟩

theorem cmpCL_swap : ∀ (l m : List Char), (cmpCL l m).swap = cmpCL m l
  | [], [] => rfl
  | [], _ :: _ => rfl
  | _ :: _, [] => rfl
  | a :: as, b :: bs => by
    show ((cmpChar a b).then (cmpCL as bs)).swap = (cmpChar b a).then (cmpCL bs as)
    rw [thenSwap, cmpChar_lin.swap_eq, cmpCL_swap as bs]

theorem cmpCL_eq_iff : ∀ (l m : List Char), cmpCL l m = .eq ↔ l = m
  | [], [] => by simp [cmpCL]
  | [], _ :: _ => by simp [cmpCL]
  | _ :: _, [] => by simp [cmpCL]
  | a :: as, b :: bs => by
    show (cmpChar a b).then (cmpCL as bs) = .eq ↔ _
    rw [thenEqEq, cmpChar_lin.eq_iff, cmpCL_eq_iff as bs]
    simp

theorem cmpCL_lt_trans : ∀ (l m k : List Char),
    cmpCL l m = .lt → cmpCL m k = .lt → cmpCL l k = .lt
  | l, [], _ => by
    intro h1 _
    cases l <;> simp [cmpCL] at h1
  | l, m :: ms, [] => by intro _ h2; cases h2
  | [], m :: ms, k :: ks => by intro _ _; rfl
  | a :: as, b :: bs, c :: cs => by
    intro h1 h2
    have d1 := thenEqLt.mp h1
    have d2 := thenEqLt.mp h2
    show (cmpChar a c).then (cmpCL as cs) = .lt
    rw [thenEqLt]
    rcases d1 with hab | ⟨hab, has⟩ <;> rcases d2 with hbc | ⟨hbc, hbs⟩
    · exact Or.inl (cmpChar_lin.lt_trans a b c hab hbc)
    · rw [cmpChar_lin.eq_iff] at hbc
      subst hbc
      exact Or.inl hab
    · rw [cmpChar_lin.eq_iff] at hab
      subst hab
      exact Or.inl hbc
    · rw [cmpChar_lin.eq_iff] at hab
      subst hab
      exact Or.inr ⟨hbc, cmpCL_lt_trans as bs cs has hbs⟩

theorem strDataInj {s t : String} (h : s.data = t.data) : s = t := by
  cases s
  cases t
  exact congrArg String.mk (by simpa using h)

theorem cmpStr_lin : CmpLin cmpStr := by
  refine ⟨fun a b => cmpCL_swap _ _, fun a b d => cmpCL_lt_trans _ _ _, fun a b => ?_⟩
  unfold cmpStr
  rw [cmpCL_eq_iff]
  exact ⟨strDataInj, fun h => by rw [h]⟩

theorem cmpOpt_lin {α : Type} {c : α → α → Ordering} (h : CmpLin c) : CmpLin (cmpOpt c) := by
  refine ⟨fun a b => ?_, fun a b d h1 h2 => ?_, fun a b => ?_⟩
  · cases a <;> cases b
    · rfl
    · rfl
    · rfl
    · exact h.swap_eq _ _
  · cases a <;> cases b <;> cases d <;> simp_all [cmpOpt]
    exact h.lt_trans _ _ _ h1 h2
  · cases a <;> cases b <;> simp [cmpOpt, h.eq_iff]

theorem lexThen_laws {α : Type} {c1 c2 : α → α → Ordering}
    (h1 : CmpLaws c1) (h2 : CmpLaws c2) : CmpLaws (lexThen c1 c2) := by
  refine ⟨fun a b => ?_, fun a b d ha hb => ?_, fun a b d ha => ?_⟩
  · show ((c1 a b).then (c2 a b)).swap = (c1 b a).then (c2 b a)
    rw [thenSwap, h1.swap_eq, h2.swap_eq]
  · have da := thenEqLt.mp ha
    have db := thenEqLt.mp hb
    show (c1 a d).then (c2 a d) = .lt
    rw [thenEqLt]
    rcases da with hab | ⟨hab, has⟩ <;> rcases db with hbd | ⟨hbd, hbs⟩
    · exact Or.inl (h1.lt_trans a b d hab hbd)
    · rw [h1.eq_congr_right a b d hbd] at hab
      exact Or.inl hab
    · rw [← h1.eq_congr a b d hab]
      exact Or.inl hbd
    · refine Or.inr ⟨by rw [← h1.eq_congr a b d hab]; exact hbd, h2.lt_trans a b d has hbs⟩
  · have da := thenEqEq.mp ha
    show (c1 b d).then (c2 b d) = (c1 a d).then (c2 a d)
    rw [h1.eq_congr a b d da.1, h2.eq_congr a b d da.2]

theorem onF_laws {α β : Type} (f : α → β) {c : β → β → Ordering} (h : CmpLaws c) :
    CmpLaws (onF f c) :=
  ⟨fun _ _ => h.swap_eq _ _, fun _ _ _ => h.lt_trans _ _ _, fun _ _ _ => h.eq_congr _ _ _⟩

theorem diagCmp_laws : CmpLaws diagCmp := by
  unfold diagCmp
  exact lexThen_laws (onF_laws _ (cmpOpt_lin cmpStr_lin).laws)
    (lexThen_laws (onF_laws _ cmpN_lin.laws)
      (lexThen_laws (onF_laws _ (cmpOpt_lin cmpN_lin).laws)
        (lexThen_laws (onF_laws _ cmpStr_lin.laws)
          (onF_laws _ (cmpOpt_lin cmpStr_lin).laws))))

theorem diagLe_total (a b : MatchError) : diagLe a b ∨ diagLe b a := by
  unfold diagLe
  by_cases h : diagCmp a b = .gt
  · right
    have hs := diagCmp_laws.swap_eq a b
    rw [h] at hs
    rw [← hs]
    simp [Ordering.swap]
  · exact Or.inl h

theorem diagLe_trans (a b d : MatchError) (h1 : diagLe a b) (h2 : diagLe b d) : diagLe a d := by
  unfold diagLe at *
  rcases neGtIff.mp h1 with ha | ha <;> rcases neGtIff.mp h2 with hb | hb
  · rw [neGtIff]
    exact Or.inl (diagCmp_laws.lt_trans a b d ha hb)
  · rw [neGtIff, ← diagCmp_laws.eq_congr_right a b d hb]
    exact Or.inl ha
  · rw [neGtIff, ← diagCmp_laws.eq_congr a b d ha]
    exact Or.inl hb
  · rw [neGtIff, ← diagCmp_laws.eq_congr a b d ha]
    exact Or.inr hb

theorem diagLe_antisymm_cmp (a b : MatchError) (h1 : diagLe a b) (h2 : diagLe b a) :
    diagCmp a b = .eq := by
  unfold diagLe at *
  rcases neGtIff.mp h1 with ha | ha
  · exfalso
    apply h2
    have hs := diagCmp_laws.swap_eq a b
    rw [ha] at hs
    rw [← hs]
    rfl
  · exact ha

instance : IsTotal MatchError diagLe := ⟨diagLe_total⟩

instance : IsTrans MatchError diagLe := ⟨diagLe_trans⟩

theorem mem_dedupSeen {α : Type} [DecidableEq α] (a : α) :
    ∀ (seen l : List α), a ∈ dedupSeen seen l ↔ a ∈ l ∧ a ∉ seen
  | seen, [] => by simp [dedupSeen]
  | seen, x :: xs => by
    by_cases hx : x ∈ seen
    · rw [dedupSeen, if_pos hx, mem_dedupSeen a seen xs]
      constructor
      · exact fun ⟨h1, h2⟩ => ⟨List.mem_cons_of_mem _ h1, h2⟩
      · rintro ⟨h1, h2⟩
        rcases List.mem_cons.mp h1 with h | h
        · subst h; exact absurd hx h2
        · exact ⟨h, h2⟩
    · rw [dedupSeen, if_neg hx]
      rw [List.mem_cons, mem_dedupSeen a (x :: seen) xs]
      constructor
      · rintro (h | ⟨h1, h2⟩)
        · subst h; exact ⟨List.mem_cons_self _ _, hx⟩
        · exact ⟨List.mem_cons_of_mem _ h1, fun hc => h2 (List.mem_cons_of_mem _ hc)⟩
      · rintro ⟨h1, h2⟩
        rcases List.mem_cons.mp h1 with h | h
        · exact Or.inl h
        · by_cases hax : a = x
          · exact Or.inl hax
          · exact Or.inr ⟨h, fun hc => by
              rcases List.mem_cons.mp hc with h' | h'
              · exact hax h'
              · exact h2 h'⟩

theorem nodup_dedupSeen {α : Type} [DecidableEq α] :
    ∀ (seen l : List α), (dedupSeen seen l).Nodup
  | seen, [] => by simp [dedupSeen]
  | seen, x :: xs => by
    by_cases hx : x ∈ seen
    · rw [dedupSeen, if_pos hx]
      exact nodup_dedupSeen seen xs
    · rw [dedupSeen, if_neg hx]
      refine List.nodup_cons.mpr ⟨fun hc => ?_, nodup_dedupSeen (x :: seen) xs⟩
      exact ((mem_dedupSeen x (x :: seen) xs).mp hc).2 (List.mem_cons_self _ _)

theorem mem_dedupKeepFirst {α : Type} [DecidableEq α] {a : α} {l : List α} :
    a ∈ dedupKeepFirst l ↔ a ∈ l := by
  rw [dedupKeepFirst, mem_dedupSeen]
  simp

theorem nodup_dedupKeepFirst {α : Type} [DecidableEq α] (l : List α) :
    (dedupKeepFirst l).Nodup := nodup_dedupSeen [] l

theorem dedupKeepFirst_perm {α : Type} [DecidableEq α] {l₁ l₂ : List α}
    (h : List.Perm l₁ l₂) : List.Perm (dedupKeepFirst l₁) (dedupKeepFirst l₂) := by
  refine List.perm_of_nodup_nodup_toFinset_eq (nodup_dedupKeepFirst l₁)
    (nodup_dedupKeepFirst l₂) (Finset.ext fun a => ?_)
  simp only [List.mem_toFinset, mem_dedupKeepFirst]
  exact h.mem_iff

theorem sortResults_perm (l : List MatchError) :
    List.Perm (sortResults l) (dedupKeepFirst l) := List.perm_insertionSort _ _

theorem mem_sortResults {a : MatchError} {l : List MatchError} :
    a ∈ sortResults l ↔ a ∈ l := by
  rw [(sortResults_perm l).mem_iff, mem_dedupKeepFirst]

theorem sorted_sortResults (l : List MatchError) : (sortResults l).Sorted diagLe :=
  List.sorted_insertionSort _ _

theorem sortedPermEq : ∀ {l₁ l₂ : List MatchError}, List.Perm l₁ l₂ →
    l₁.Sorted diagLe → l₂.Sorted diagLe →
    (∀ a ∈ l₁, ∀ b ∈ l₁, diagCmp a b = .eq → a = b) → l₁ = l₂
  | [], l₂, h, _, _, _ => (h.symm.eq_nil).symm
  | a :: t₁, [], h, _, _, _ => absurd h.eq_nil (by simp)
  | a :: t₁, b :: t₂, h, hs₁, hs₂, hinj => by
    have hb1 : b ∈ a :: t₁ := h.symm.subset (List.mem_cons_self _ _)
    have ha2 : a ∈ b :: t₂ := h.subset (List.mem_cons_self _ _)
    have hab : a = b := by
      rcases List.mem_cons.mp hb1 with hba | hbt
      · exact hba.symm
      rcases List.mem_cons.mp ha2 with hab' | hat
      · exact hab'
      have le1 : diagLe a b := (List.sorted_cons.mp hs₁).1 b hbt
      have le2 : diagLe b a := (List.sorted_cons.mp hs₂).1 a hat
      exact hinj a (List.mem_cons_self _ _) b hb1 (diagLe_antisymm_cmp a b le1 le2)
    subst hab
    have ht : List.Perm t₁ t₂ := h.cons_inv
    have := sortedPermEq ht (List.sorted_cons.mp hs₁).2 (List.sorted_cons.mp hs₂).2
      (fun x hx y hy => hinj x (List.mem_cons_of_mem _ hx) y (List.mem_cons_of_mem _ hy))
    rw [this]

theorem sortResults_perm_congr {l₁ l₂ : List MatchError} (h : List.Perm l₁ l₂)
    (hinj : ∀ a ∈ l₁, ∀ b ∈ l₁, diagCmp a b = .eq → a = b) :
    sortResults l₁ = sortResults l₂ := by
  refine sortedPermEq ?_ (sorted_sortResults l₁) (sorted_sortResults l₂) ?_
  · exact ((sortResults_perm l₁).trans (dedupKeepFirst_perm h)).trans (sortResults_perm l₂).symm
  · intro x hx y hy
    exact hinj x (mem_sortResults.mp hx) y (mem_sortResults.mp hy)

theorem foldl_preserve {α β : Type} (step : β → α → β) (P : β → Prop)
    (h : ∀ s a, P s → P (step s a)) :
    ∀ (l : List α) (s : β), P s → P (l.foldl step s)
  | [], _, hs => hs
  | a :: l, s, hs => foldl_preserve step P h l (step s a) (h s a hs)

theorem foldl_mem_mono {α β γ : Type} (step : β → α → β) (fl : β → List γ)
    (ok : γ → Prop) :
    ∀ (l : List α), (∀ s, ∀ a ∈ l, ∀ x, x ∈ fl (step s a) → x ∈ fl s ∨ ok x) →
    ∀ (s : β) (x : γ), x ∈ fl (l.foldl step s) → x ∈ fl s ∨ ok x
  | [], _, _, _, hx => Or.inl hx
  | a :: l, hstep, s, x, hx => by
    rcases foldl_mem_mono step fl ok l
        (fun s' a' ha' => hstep s' a' (List.mem_cons_of_mem _ ha')) (step s a) x hx with
      h | h
    · exact hstep s a (List.mem_cons_self _ _) x h
    · exact Or.inr h

theorem mem_insertPB {l : List PB} {x y : PB} (h : y ∈ l) : y ∈ insertPB l x := by
  unfold insertPB
  split_ifs
  · exact h
  · exact List.mem_append_left _ h

theorem mem_insertPB_iff {l : List PB} {x y : PB} :
    y ∈ insertPB l x ↔ y ∈ l ∨ y = x := by
  unfold insertPB
  split_ifs with hx
  · constructor
    · exact Or.inl
    · rintro (h | h)
      · exact h
      · subst h; exact hx
  · simp

theorem nodup_insertPB {l : List PB} (h : l.Nodup) (x : PB) : (insertPB l x).Nodup := by
  unfold insertPB
  split_ifs with hx
  · exact h
  · simp [List.nodup_append, h, hx]

theorem procChild_files_mem {excl : List String} {st : EmitSt} {ch : FileDict} :
    ∀ f ∈ (procChild excl st ch).files, f ∈ st.files ∨ isExcluded excl f.path = false := by
  unfold procChild
  split_ifs with he
  · exact fun f hf => Or.inl hf
  · intro f hf
    rcases List.mem_append.mp hf with h | h
    · exact Or.inl h
    · rw [List.mem_singleton.mp h]
      exact Or.inr (Bool.not_eq_true _ ▸ Bool.of_not_eq_true he)

theorem procChild_pbs_mem {excl : List String} {st : EmitSt} {ch : FileDict} :
    ∀ pb ∈ (procChild excl st ch).pbs, pb ∈ st.pbs ∨ isExcluded excl pb.1 = false := by
  unfold procChild
  split_ifs with he
  · exact fun pb hpb => Or.inl hpb
  · intro pb hpb
    rcases mem_insertPB_iff.mp hpb with h | h
    · exact Or.inl h
    · subst h
      exact Or.inr (Bool.of_not_eq_true he)

theorem procChild_expanded {excl : List String} {st : EmitSt} {ch : FileDict} :
    (procChild excl st ch).expanded = st.expanded := by
  unfold procChild
  split_ifs <;> rfl

theorem procChild_errs {excl : List String} {st : EmitSt} {ch : FileDict} :
    (procChild excl st ch).errs = st.errs := by
  unfold procChild
  split_ifs <;> rfl

theorem childFold_expanded (excl : List String) :
    ∀ (chs : List FileDict) (st : EmitSt),
      (chs.foldl (procChild excl) st).expanded = st.expanded
  | [], _ => rfl
  | ch :: chs, st => by
    rw [List.foldl_cons, childFold_expanded excl chs, procChild_expanded]

theorem childFold_errs (excl : List String) :
    ∀ (chs : List FileDict) (st : EmitSt),
      (chs.foldl (procChild excl) st).errs = st.errs
  | [], _ => rfl
  | ch :: chs, st => by
    rw [List.foldl_cons, childFold_errs excl chs, procChild_errs]

theorem procArg_expanded {c : Collab} {excl : List String} {pdir : String}
    {st : EmitSt} {arg : PB} :
    (procArg c excl pdir st arg).expanded = st.expanded ++ [arg] := by
  unfold procArg
  cases c.findChildren arg pdir
  · rfl
  · simp [childFold_expanded]

theorem procArg_errs {c : Collab} {excl : List String} {pdir : String}
    {st : EmitSt} {arg : PB} :
    (procArg c excl pdir st arg).errs = st.errs ++ (errOf c pdir arg).toList := by
  unfold procArg errOf
  cases c.findChildren arg pdir
  · simp
  · simp [childFold_errs]

theorem procArg_files_mem {c : Collab} {excl : List String} {pdir : String}
    {st : EmitSt} {arg : PB} :
    ∀ f ∈ (procArg c excl pdir st arg).files, f ∈ st.files ∨ isExcluded excl f.path = false := by
  unfold procArg
  cases c.findChildren arg pdir with
  | error e => exact fun f hf => Or.inl hf
  | ok children =>
    intro f hf
    exact foldl_mem_mono (procChild excl) EmitSt.files
      (fun g => isExcluded excl g.path = false) children
      (fun s _ _ => procChild_files_mem) st f hf

theorem procArg_pbs_mem {c : Collab} {excl : List String} {pdir : String}
    {st : EmitSt} {arg : PB} :
    ∀ pb ∈ (procArg c excl pdir st arg).pbs, pb ∈ st.pbs ∨ isExcluded excl pb.1 = false := by
  unfold procArg
  cases c.findChildren arg pdir with
  | error e => exact fun pb hpb => Or.inl hpb
  | ok children =>
    intro pb hpb
    exact foldl_mem_mono (procChild excl) EmitSt.pbs
      (fun q => isExcluded excl q.1 = false) children
      (fun s _ _ => procChild_pbs_mem) st pb hpb

theorem emitLoop_files_mem (c : Collab) (excl : List String) (pdir : String) :
    ∀ (fuel : Nat) (st : EmitSt),
      ∀ f ∈ (emitLoop c excl pdir fuel st).files,
        f ∈ st.files ∨ isExcluded excl f.path = false
  | 0, _, _, hf => Or.inl hf
  | fuel + 1, st, f, hf => by
    rw [emitLoop] at hf
    split_ifs at hf
    · exact Or.inl hf
    · rcases emitLoop_files_mem c excl pdir fuel _ f hf with h | h
      · exact foldl_mem_mono (procArg c excl pdir) EmitSt.files
          (fun g => isExcluded excl g.path = false) _
          (fun s _ _ => procArg_files_mem) st f h
      · exact Or.inr h

theorem emitLoop_pbs_mem (c : Collab) (excl : List String) (pdir : String) :
    ∀ (fuel : Nat) (st : EmitSt),
      ∀ pb ∈ (emitLoop c excl pdir fuel st).pbs,
        pb ∈ st.pbs ∨ isExcluded excl pb.1 = false
  | 0, _, _, hpb => Or.inl hpb
  | fuel + 1, st, pb, hpb => by
    rw [emitLoop] at hpb
    split_ifs at hpb
    · exact Or.inl hpb
    · rcases emitLoop_pbs_mem c excl pdir fuel _ pb hpb with h | h
      · exact foldl_mem_mono (procArg c excl pdir) EmitSt.pbs
          (fun q => isExcluded excl q.1 = false) _
          (fun s _ _ => procArg_pbs_mem) st pb h
      · exact Or.inr h

theorem argsFold_expanded (c : Collab) (excl : List String) (pdir : String) :
    ∀ (args : List PB) (st : EmitSt),
      (args.foldl (procArg c excl pdir) st).expanded = st.expanded ++ args
  | [], st => by simp
  | a :: args, st => by
    rw [List.foldl_cons, argsFold_expanded c excl pdir args, procArg_expanded]
    simp

theorem argsFold_errs (c : Collab) (excl : List String) (pdir : String) :
    ∀ (args : List PB) (st : EmitSt),
      (args.foldl (procArg c excl pdir) st).errs =
        st.errs ++ args.filterMap (errOf c pdir)
  | [], st => by simp
  | a :: args, st => by
    rw [List.foldl_cons, argsFold_errs c excl pdir args, procArg_errs,
      List.filterMap_cons]
    cases errOf c pdir a <;> simp

theorem emitLoop_errs_expanded (c : Collab) (excl : List String) (pdir : String) :
    ∀ (fuel : Nat) (st : EmitSt),
      st.errs = st.expanded.filterMap (errOf c pdir) →
      (emitLoop c excl pdir fuel st).errs =
        (emitLoop c excl pdir fuel st).expanded.filterMap (errOf c pdir)
  | 0, _, h => h
  | fuel + 1, st, h => by
    rw [emitLoop]
    split_ifs
    · exact h
    · refine emitLoop_errs_expanded c excl pdir fuel _ ?_
      rw [argsFold_errs, argsFold_expanded, h, List.filterMap_append]

theorem nodup_subset_length {α : Type} [DecidableEq α] {l u : List α}
    (hn : l.Nodup) (hs : ∀ x ∈ l, x ∈ u) : l.length ≤ u.length := by
  calc l.length = l.toFinset.card := (List.toFinset_card_of_nodup hn).symm
    _ ≤ u.toFinset.card :=
      Finset.card_le_card (fun a ha => List.mem_toFinset.mpr (hs a (List.mem_toFinset.mp ha)))
    _ ≤ u.length := List.toFinset_card_le u

theorem argsFold_pbs_nodup (c : Collab) (excl : List String) (pdir : String)
    (args : List PB) (st : EmitSt) (h : st.pbs.Nodup) :
    ((args.foldl (procArg c excl pdir) st).pbs).Nodup := by
  refine foldl_preserve _ (fun s => s.pbs.Nodup) (fun s a hs => ?_) args st h
  unfold procArg
  cases c.findChildren a pdir with
  | error e => exact hs
  | ok children =>
    refine foldl_preserve _ (fun s' => s'.pbs.Nodup) (fun s' ch hs' => ?_) children s hs
    unfold procChild
    split_ifs
    · exact hs'
    · exact nodup_insertPB hs' _

theorem argsFold_pbs_mono (c : Collab) (excl : List String) (pdir : String)
    (args : List PB) (st : EmitSt) {x : PB} (h : x ∈ st.pbs) :
    x ∈ (args.foldl (procArg c excl pdir) st).pbs := by
  refine foldl_preserve _ (fun s => x ∈ s.pbs) (fun s a hs => ?_) args st h
  unfold procArg
  cases c.findChildren a pdir with
  | error e => exact hs
  | ok children =>
    refine foldl_preserve _ (fun s' => x ∈ s'.pbs) (fun s' ch hs' => ?_) children s hs
    unfold procChild
    split_ifs
    · exact hs'
    · exact mem_insertPB hs'

theorem procArg_pbs_U {c : Collab} {excl : List String} {pdir : String} {U : List PB}
    (hcl : ∀ arg children, c.findChildren arg pdir = .ok children →
      ∀ ch ∈ children, (ch.path, ch.type) ∈ U)
    {st : EmitSt} {arg : PB} :
    ∀ x ∈ (procArg c excl pdir st arg).pbs, x ∈ st.pbs ∨ x ∈ U := by
  unfold procArg
  cases hfc : c.findChildren arg pdir with
  | error e => exact fun x hx => Or.inl hx
  | ok children =>
    intro x hx
    refine foldl_mem_mono (procChild excl) EmitSt.pbs (fun q => q ∈ U) children
      (fun s ch hch y hy => ?_) st x hx
    unfold procChild at hy
    split_ifs at hy
    · exact Or.inl hy
    · rcases mem_insertPB_iff.mp hy with h | h
      · exact Or.inl h
      · exact Or.inr (h ▸ hcl arg children hfc ch hch)

theorem emitLoop_closure (c : Collab) (excl : List String) (pdir : String) (U : List PB)
    (hcl : ∀ arg children, c.findChildren arg pdir = .ok children →
      ∀ ch ∈ children, (ch.path, ch.type) ∈ U) :
    ∀ (fuel : Nat) (st : EmitSt),
      st.pbs.Nodup → st.expanded.Nodup →
      (∀ x ∈ st.expanded, x ∈ st.pbs) → (∀ x ∈ st.pbs, x ∈ U) →
      U.length - st.expanded.length < fuel →
      (∀ pb ∈ (emitLoop c excl pdir fuel st).pbs, pb ∈ (emitLoop c excl pdir fuel st).expanded) ∧
      (emitLoop c excl pdir fuel st).expanded.Nodup ∧
      (∀ x ∈ (emitLoop c excl pdir fuel st).expanded, x ∈ (emitLoop c excl pdir fuel st).pbs)
  | 0, st, _, _, _, _, hfuel => absurd hfuel (by omega)
  | fuel + 1, st, h1, h2, h3, h4, hfuel => by
    rw [emitLoop]
    split_ifs with hdone
    · refine ⟨fun pb hpb => ?_, h2, h3⟩
      exact of_decide_eq_true (List.all_eq_true.mp hdone pb hpb)
    · have hargs : ∀ a ∈ st.pbs.filter (fun x => decide (x ∉ st.expanded)),
          a ∈ st.pbs ∧ a ∉ st.expanded := by
        intro a ha
        have := List.mem_filter.mp ha
        exact ⟨this.1, of_decide_eq_true this.2⟩
      have hargsnd : (st.pbs.filter (fun x => decide (x ∉ st.expanded))).Nodup :=
        h1.filter _
      have hargsne : st.pbs.filter (fun x => decide (x ∉ st.expanded)) ≠ [] := by
        intro hnil
        apply hdone
        rw [List.all_eq_true]
        intro x hx
        by_contra hdx
        have hxe : x ∉ st.expanded := fun hmem => hdx (decide_eq_true hmem)
        have : x ∈ st.pbs.filter (fun y => decide (y ∉ st.expanded)) :=
          List.mem_filter.mpr ⟨hx, decide_eq_true hxe⟩
        rw [hnil] at this
        cases this
      have hexp' := argsFold_expanded c excl pdir
        (st.pbs.filter (fun x => decide (x ∉ st.expanded))) st
      have hnd' : ((st.pbs.filter (fun x => decide (x ∉ st.expanded))).foldl
          (procArg c excl pdir) st).expanded.Nodup := by
        rw [hexp', List.nodup_append]
        exact ⟨h2, hargsnd, fun x hx hx' => (hargs x hx').2 hx⟩
      have hsub' : ∀ x ∈ ((st.pbs.filter (fun x => decide (x ∉ st.expanded))).foldl
          (procArg c excl pdir) st).expanded,
          x ∈ ((st.pbs.filter (fun x => decide (x ∉ st.expanded))).foldl
            (procArg c excl pdir) st).pbs := by
        intro x hx
        rw [hexp'] at hx
        rcases List.mem_append.mp hx with h | h
        · exact argsFold_pbs_mono c excl pdir _ st (h3 x h)
        · exact argsFold_pbs_mono c excl pdir _ st (hargs x h).1
      have hU' : ∀ x ∈ ((st.pbs.filter (fun x => decide (x ∉ st.expanded))).foldl
          (procArg c excl pdir) st).pbs, x ∈ U := by
        intro x hx
        rcases foldl_mem_mono (procArg c excl pdir) EmitSt.pbs (fun q => q ∈ U) _
          (fun s _ _ => procArg_pbs_U hcl) st x hx with h | h
        · exact h4 x h
        · exact h
      have hnd2' : ((st.pbs.filter (fun x => decide (x ∉ st.expanded))).foldl
          (procArg c excl pdir) st).pbs.Nodup := argsFold_pbs_nodup c excl pdir _ st h1
      have hlen : ((st.pbs.filter (fun x => decide (x ∉ st.expanded))).foldl
          (procArg c excl pdir) st).expanded.length ≤ U.length :=
        nodup_subset_length hnd' (fun x hx => hU' x (hsub' x hx))
      have hlen2 : ((st.pbs.filter (fun x => decide (x ∉ st.expanded))).foldl
          (procArg c excl pdir) st).expanded.length =
          st.expanded.length + (st.pbs.filter (fun x => decide (x ∉ st.expanded))).length := by
        rw [hexp', List.length_append]
      have hpos : 0 < (st.pbs.filter (fun x => decide (x ∉ st.expanded))).length :=
        List.length_pos.mpr hargsne
      exact emitLoop_closure c excl pdir U hcl fuel _ hnd2' hnd' hsub' hU' (by omega)

theorem runT_processed (r : Runner) (c : Collab) (fuel : Nat) :
    (r.runT c fuel).processed =
      (dedupKeepFirst (emitLoop c r.exclude_paths r.playbook_dir fuel (emitInit r c)).files).filter
        (fun f => decide (f.path ∉ r.checked_files)) := rfl

theorem runT_discovered (r : Runner) (c : Collab) (fuel : Nat) :
    (r.runT c fuel).discovered =
      (emitLoop c r.exclude_paths r.playbook_dir fuel (emitInit r c)).files := rfl

theorem runT_emitErrs (r : Runner) (c : Collab) (fuel : Nat) :
    (r.runT c fuel).emitErrs =
      (emitLoop c r.exclude_paths r.playbook_dir fuel (emitInit r c)).errs := rfl

theorem runT_expanded (r : Runner) (c : Collab) (fuel : Nat) :
    (r.runT c fuel).expanded =
      (emitLoop c r.exclude_paths r.playbook_dir fuel (emitInit r c)).expanded := rfl

theorem runT_pbsAfter (r : Runner) (c : Collab) (fuel : Nat) :
    (r.runT c fuel).runnerAfter.playbooks =
      (emitLoop c r.exclude_paths r.playbook_dir fuel (emitInit r c)).pbs := rfl

theorem runT_checkedAfter (r : Runner) (c : Collab) (fuel : Nat) :
    (r.runT c fuel).runnerAfter.checked_files =
      insertAll r.checked_files ((r.runT c fuel).processed.map (fun f => f.path)) := rfl

theorem runT_result (r : Runner) (c : Collab) (fuel : Nat) :
    (r.runT c fuel).result = sortResults (r.runT c fuel).matchesAcc := rfl

theorem foldl_runStep (c : Collab) :
    ∀ (files : List FileDict) (acc : List MatchError × List String × List FileDict),
      files.foldl (runStep c) acc =
        (acc.1 ++ files.flatMap (fileContrib c),
         acc.2.1 ++ files.filterMap scOf,
         acc.2.2 ++ files)
  | [], acc => by simp
  | f :: fs, acc => by
    rw [List.foldl_cons, foldl_runStep c fs]
    unfold runStep fileContrib scOf
    by_cases hp : f.type = "playbook"
    · by_cases hrc : (c.syntaxCheck f.path).returncode ≠ 0 <;> simp [hp, hrc]
    · simp [hp]

theorem runT_matchesAcc (r : Runner) (c : Collab) (fuel : Nat) :
    (r.runT c fuel).matchesAcc =
      (r.runT c fuel).emitErrs ++ (r.runT c fuel).processed.flatMap (fileContrib c) := by
  rw [show (r.runT c fuel).matchesAcc =
    ((r.runT c fuel).processed.foldl (runStep c) ((r.runT c fuel).emitErrs, [], [])).1 from rfl]
  rw [foldl_runStep]

theorem runT_syntaxChecked (r : Runner) (c : Collab) (fuel : Nat) :
    (r.runT c fuel).syntaxChecked = (r.runT c fuel).processed.filterMap scOf := by
  rw [show (r.runT c fuel).syntaxChecked =
    ((r.runT c fuel).processed.foldl (runStep c) ((r.runT c fuel).emitErrs, [], [])).2.1 from rfl]
  rw [foldl_runStep]
  rfl

theorem runT_rulesEvaluated (r : Runner) (c : Collab) (fuel : Nat) :
    (r.runT c fuel).rulesEvaluated = (r.runT c fuel).processed := by
  rw [show (r.runT c fuel).rulesEvaluated =
    ((r.runT c fuel).processed.foldl (runStep c) ((r.runT c fuel).emitErrs, [], [])).2.2 from rfl]
  rw [foldl_runStep]
  rfl

theorem mem_insertAll_left {s xs : List String} {p : String} (h : p ∈ s) :
    p ∈ insertAll s xs := by
  refine foldl_preserve _ (fun t => p ∈ t) (fun t x ht => ?_) xs s h
  split_ifs
  · exact ht
  · exact List.mem_append_left _ ht

theorem mem_insertAll_right {p : String} :
    ∀ (xs s : List String), p ∈ xs → p ∈ insertAll s xs
  | [], _, h => absurd h (by simp)
  | x :: xs, s, h => by
    rcases List.mem_cons.mp h with h | h
    · subst h
      have hstep : p ∈ (if p ∈ s then s else s ++ [p]) := by
        split_ifs with hs
        · exact hs
        · exact List.mem_append_right _ (List.mem_singleton.mpr rfl)
      show p ∈ insertAll (if p ∈ s then s else s ++ [p]) xs
      exact mem_insertAll_left hstep
    · exact mem_insertAll_right xs _ h

theorem emitLoop_inv_nodup (c : Collab) (excl : List String) (pdir : String) :
    ∀ (fuel : Nat) (st : EmitSt),
      st.pbs.Nodup → st.expanded.Nodup → (∀ x ∈ st.expanded, x ∈ st.pbs) →
      (emitLoop c excl pdir fuel st).expanded.Nodup
  | 0, _, _, h2, _ => h2
  | fuel + 1, st, h1, h2, h3 => by
    rw [emitLoop]
    split_ifs
    · exact h2
    · have hargs : ∀ a ∈ st.pbs.filter (fun x => decide (x ∉ st.expanded)),
          a ∈ st.pbs ∧ a ∉ st.expanded := by
        intro a ha
        have := List.mem_filter.mp ha
        exact ⟨this.1, of_decide_eq_true this.2⟩
      have hexp' := argsFold_expanded c excl pdir
        (st.pbs.filter (fun x => decide (x ∉ st.expanded))) st
      refine emitLoop_inv_nodup c excl pdir fuel _
        (argsFold_pbs_nodup c excl pdir _ st h1) ?_ ?_
      · rw [hexp', List.nodup_append]
        exact ⟨h2, h1.filter _, fun x hx hx' => (hargs x hx').2 hx⟩
      · intro x hx
        rw [hexp'] at hx
        rcases List.mem_append.mp hx with h | h
        · exact argsFold_pbs_mono c excl pdir _ st (h3 x h)
        · exact argsFold_pbs_mono c excl pdir _ st (hargs x h).1

theorem processed_sub_discovered (r : Runner) (c : Collab) (fuel : Nat) :
    ∀ f ∈ (r.runT c fuel).processed, f ∈ (r.runT c fuel).discovered := by
  intro f hf
  rw [runT_processed] at hf
  rw [runT_discovered]
  exact mem_dedupKeepFirst.mp (List.mem_filter.mp hf).1

theorem discovered_not_excluded (r : Runner) (c : Collab) (fuel : Nat) :
    ∀ f ∈ (r.runT c fuel).discovered, isExcluded r.exclude_paths f.path = false := by
  intro f hf
  rw [runT_discovered] at hf
  rcases emitLoop_files_mem c r.exclude_paths r.playbook_dir fuel (emitInit r c) f hf with
    h | h
  · rcases List.mem_filterMap.mp h with ⟨pb, _, heq⟩
    split_ifs at heq with hcond
    rw [Bool.or_eq_true, not_or] at hcond
    cases heq
    exact Bool.of_not_eq_true hcond.1
  · exact h

/-- C1.  For a completed syntax-check run with exit code 4 whose stripped
stderr matches the error pattern with captures (title, filename, line,
column), the parser returns exactly one Diagnostic carrying exactly those
captures, tagged with the syntax-check-failed rule. -/
theorem syntax_check_exit4_structured (run : CompletedProcess) (t f : String) (n k : Nat)
    (h4 : run.returncode = 4)
    (hm : searchErr (stripAnsiEscape run.stderr.data) = some ⟨t, f, n, k⟩) :
    parseAnsibleSyntaxCheck run =
      [{ message := some t, filename := some f, linenumber := n, column := some k,
         rule := Rule.ansibleSyntaxCheck,
         details := mkDetails (stripAnsiEscape run.stderr.data)
           (stripAnsiEscape run.stdout.data) }] := by
  simp [parseAnsibleSyntaxCheck, h4, hm]

set_option maxRecDepth 200000 in
/-- C1 witness: the repository's own test input (exit code 4, title
"conflicting action statements: debug, always_run", filename
/foo/example.yml, line 47, column 7). -/
theorem syntax_check_exit4_structured_witness :
    parseAnsibleSyntaxCheck ⟨4, "", testStderr⟩ =
      [{ message := some "conflicting action statements: debug, always_run",
         filename := some "/foo/example.yml", linenumber := 47, column := some 7,
         rule := Rule.ansibleSyntaxCheck,
         details := mkDetails (stripAnsiEscape testStderr.data)
           (stripAnsiEscape "".data) }] :=
  syntax_check_exit4_structured ⟨4, "", testStderr⟩
    "conflicting action statements: debug, always_run" "/foo/example.yml" 47 7
    rfl (by decide)

/-- C10.  For a completed run with exit code 4 whose stripped stderr does not
match the error pattern, the parser still returns exactly one Diagnostic
tagged with the syntax-check-failed rule, with message, filename and column
null and line 0; only details carries the stripped output. -/
theorem exit4_unstructured_null_fields (run : CompletedProcess)
    (h4 : run.returncode = 4)
    (hm : searchErr (stripAnsiEscape run.stderr.data) = none) :
    parseAnsibleSyntaxCheck run =
      [{ message := none, filename := none, linenumber := 0, column := none,
         rule := Rule.ansibleSyntaxCheck,
         details := mkDetails (stripAnsiEscape run.stderr.data)
           (stripAnsiEscape run.stdout.data) }] := by
  simp [parseAnsibleSyntaxCheck, h4, hm]

set_option maxRecDepth 10000 in
/-- C10 witness: exit code 4 with unstructured stderr. -/
theorem exit4_unstructured_null_fields_witness :
    parseAnsibleSyntaxCheck ⟨4, "out", "boom\n"⟩ =
      [{ message := none, filename := none, linenumber := 0, column := none,
         rule := Rule.ansibleSyntaxCheck,
         details := mkDetails (stripAnsiEscape ("boom\n").data)
           (stripAnsiEscape ("out").data) }] :=
  exit4_unstructured_null_fields ⟨4, "out", "boom\n"⟩ rfl (by decide)

/-- C5 counterexample: for exit code 1 and unstructured stderr the code
synthesizes the message "Ansible --syntax-check reported unexpected error
code 1", which is not the claim's literal "syntax check reported unexpected
error code " followed by the exit code. -/
theorem unexpected_code_message_text_counterexample :
    parseAnsibleSyntaxCheck ⟨1, "", "boom\n"⟩ =
      [{ message := some "Ansible --syntax-check reported unexpected error code 1",
         filename := none, linenumber := 0, column := none, rule := Rule.runtimeError,
         details := "boom\n" }] ∧
    "Ansible --syntax-check reported unexpected error code 1" ≠
      "syntax check reported unexpected error code 1" := by
  exact ⟨by decide, by decide⟩

/-- C5 (amended).  For a completed run with non-zero exit code other than 4
whose stripped stderr does not match the error pattern, the parser returns
exactly one Diagnostic with line 0, column null, the runtime-error rule, and
the synthesized message "Ansible --syntax-check reported unexpected error
code " followed by the exit code (so the message contains the exit code). -/
theorem unexpected_code_fallback (run : CompletedProcess)
    (h0 : run.returncode ≠ 0) (h4 : run.returncode ≠ 4)
    (hm : searchErr (stripAnsiEscape run.stderr.data) = none) :
    parseAnsibleSyntaxCheck run =
      [{ message := some (synthMsg run.returncode), filename := none, linenumber := 0,
         column := none, rule := Rule.runtimeError,
         details := mkDetails (stripAnsiEscape run.stderr.data)
           (stripAnsiEscape run.stdout.data) }] := by
  simp [parseAnsibleSyntaxCheck, h0, h4, hm, fallbackMsg]

set_option maxRecDepth 10000 in
/-- C5 witness: exit code 1 with unstructured stderr. -/
theorem unexpected_code_fallback_witness :
    parseAnsibleSyntaxCheck ⟨1, "", "boom\n"⟩ =
      [{ message := some (synthMsg 1), filename := none, linenumber := 0,
         column := none, rule := Rule.runtimeError,
         details := mkDetails (stripAnsiEscape ("boom\n").data)
           (stripAnsiEscape ("").data) }] :=
  unexpected_code_fallback ⟨1, "", "boom\n"⟩ (by decide) (by decide) (by decide)

/-- C3.  A path matching a registered exclusion prefix never appears in the
working-file list built by discovery, is never handed to the external syntax
checker, never reaches the rule collaborator, and is never added to the task
frontier by discovery (any task-set entry with that path was already a root). -/
theorem excluded_paths_invisible (r : Runner) (c : Collab) (fuel : Nat) (p : String)
    (hp : isExcluded r.exclude_paths p = true) :
    (∀ f ∈ (r.runT c fuel).discovered, f.path ≠ p) ∧
    (∀ q ∈ (r.runT c fuel).syntaxChecked, q ≠ p) ∧
    (∀ f ∈ (r.runT c fuel).rulesEvaluated, f.path ≠ p) ∧
    (∀ k, ((p, k) ∈ (r.runT c fuel).runnerAfter.playbooks → (p, k) ∈ r.playbooks)) := by
  have hdisc : ∀ f ∈ (r.runT c fuel).discovered, f.path ≠ p := by
    intro f hf heq
    have := discovered_not_excluded r c fuel f hf
    rw [heq, hp] at this
    cases this
  refine ⟨hdisc, ?_, ?_, ?_⟩
  · intro q hq
    rw [runT_syntaxChecked] at hq
    rcases List.mem_filterMap.mp hq with ⟨f, hf, hsc⟩
    unfold scOf at hsc
    by_cases hft : f.type = "playbook"
    · rw [if_pos hft] at hsc
      injection hsc with hq
      rw [← hq]
      exact hdisc f (processed_sub_discovered r c fuel f hf)
    · rw [if_neg hft] at hsc
      cases hsc
  · intro f hf
    rw [runT_rulesEvaluated] at hf
    exact hdisc f (processed_sub_discovered r c fuel f hf)
  · intro k hk
    rw [runT_pbsAfter] at hk
    rcases emitLoop_pbs_mem c r.exclude_paths r.playbook_dir fuel (emitInit r c) (p, k) hk with
      h | h
    · exact h
    · rw [hp] at h
      cases h

set_option maxRecDepth 10000 in
/-- C3 witness: `vendor/x.yml` matches the registered prefix `vendor/` and is
invisible throughout the run, although discovery proposed it as a child. -/
theorem excluded_paths_invisible_witness :
    isExcluded vRunner.exclude_paths "vendor/x.yml" = true ∧
    (∀ f ∈ (vRunner.runT vCollab 3).discovered, f.path ≠ "vendor/x.yml") ∧
    (∀ q ∈ (vRunner.runT vCollab 3).syntaxChecked, q ≠ "vendor/x.yml") ∧
    (∀ f ∈ (vRunner.runT vCollab 3).rulesEvaluated, f.path ≠ "vendor/x.yml") ∧
    (∀ k, (("vendor/x.yml", k) ∈ (vRunner.runT vCollab 3).runnerAfter.playbooks →
      ("vendor/x.yml", k) ∈ vRunner.playbooks)) := by
  have h := excluded_paths_invisible vRunner vCollab 3 "vendor/x.yml" (by decide)
  exact ⟨by decide, h.1, h.2.1, h.2.2.1, h.2.2.2⟩

/-- C4.  Every processed file is handed to the rule collaborator; a
playbook-typed file is also handed to the syntax checker, and both the
checker's parsed diagnostics and the rule collaborator's diagnostics end up
in the sorted result — a failing syntax check does not suppress rule
evaluation. -/
theorem syntax_failure_does_not_skip_rules (r : Runner) (c : Collab) (fuel : Nat)
    (f : FileDict) (hf : f ∈ (r.runT c fuel).processed) :
    f ∈ (r.runT c fuel).rulesEvaluated ∧
    (f.type = "playbook" → f.path ∈ (r.runT c fuel).syntaxChecked) ∧
    (∀ d ∈ c.rulesRun f, d ∈ (r.runT c fuel).result) ∧
    (f.type = "playbook" →
      ∀ d ∈ parseAnsibleSyntaxCheck (c.syntaxCheck f.path), d ∈ (r.runT c fuel).result) := by
  refine ⟨by rw [runT_rulesEvaluated]; exact hf, ?_, ?_, ?_⟩
  · intro hp
    rw [runT_syntaxChecked]
    exact List.mem_filterMap.mpr ⟨f, hf, by simp [scOf, hp]⟩
  · intro d hd
    rw [runT_result, mem_sortResults, runT_matchesAcc]
    refine List.mem_append_right _ (List.mem_flatMap.mpr ⟨f, hf, ?_⟩)
    unfold fileContrib
    exact List.mem_append_right _ hd
  · intro hp d hd
    by_cases hrc : (c.syntaxCheck f.path).returncode ≠ 0
    · rw [runT_result, mem_sortResults, runT_matchesAcc]
      refine List.mem_append_right _ (List.mem_flatMap.mpr ⟨f, hf, ?_⟩)
      unfold fileContrib
      rw [if_pos ⟨hp, hrc⟩]
      exact List.mem_append_left _ hd
    · have hz : parseAnsibleSyntaxCheck (c.syntaxCheck f.path) = [] := by
        unfold parseAnsibleSyntaxCheck
        rw [if_neg hrc]
      rw [hz] at hd
      cases hd

set_option maxRecDepth 10000 in
/-- C4 witness: the root playbook fails its syntax check (exit 4) and is
still rule-evaluated; both diagnostics reach the result. -/
theorem syntax_failure_does_not_skip_rules_witness :
    wSeed ∈ (wRunner.runT wCollab 3).processed ∧
    wSeed ∈ (wRunner.runT wCollab 3).rulesEvaluated ∧
    wSeed.path ∈ (wRunner.runT wCollab 3).syntaxChecked ∧
    (∀ d ∈ wCollab.rulesRun wSeed, d ∈ (wRunner.runT wCollab 3).result) ∧
    (∀ d ∈ parseAnsibleSyntaxCheck (wCollab.syntaxCheck wSeed.path),
      d ∈ (wRunner.runT wCollab 3).result) := by
  have h := syntax_failure_does_not_skip_rules wRunner wCollab 3 wSeed (by decide)
  exact ⟨by decide, h.1, h.2.1 rfl, h.2.2.1, h.2.2.2 rfl⟩

/-- C6.  Discovery failures are isolated: the yielded diagnostics are exactly
one loading-failure-tagged conversion per failing expanded task, every
yielded diagnostic carries the loading-failure rule, no task is expanded
twice (for a duplicate-free task set), and every surviving file is still
rule-evaluated. -/
theorem loading_failure_isolated (r : Runner) (c : Collab) (fuel : Nat) :
    (r.runT c fuel).emitErrs =
      (r.runT c fuel).expanded.filterMap (errOf c r.playbook_dir) ∧
    (∀ m ∈ (r.runT c fuel).emitErrs, m.rule = Rule.loadingFailure) ∧
    (r.playbooks.Nodup → (r.runT c fuel).expanded.Nodup) ∧
    (r.runT c fuel).rulesEvaluated = (r.runT c fuel).processed := by
  have h1 : (r.runT c fuel).emitErrs =
      (r.runT c fuel).expanded.filterMap (errOf c r.playbook_dir) := by
    rw [runT_emitErrs, runT_expanded]
    exact emitLoop_errs_expanded c r.exclude_paths r.playbook_dir fuel (emitInit r c) rfl
  refine ⟨h1, ?_, ?_, runT_rulesEvaluated r c fuel⟩
  · intro m hm
    rw [h1] at hm
    rcases List.mem_filterMap.mp hm with ⟨a, _, ha⟩
    unfold errOf at ha
    rcases hfc : c.findChildren a r.playbook_dir with e | ch
    · rw [hfc] at ha
      cases ha
      rfl
    · rw [hfc] at ha
      cases ha
  · intro hnd
    rw [runT_expanded]
    exact emitLoop_inv_nodup c r.exclude_paths r.playbook_dir fuel (emitInit r c) hnd
      List.nodup_nil (fun x hx => absurd hx (List.not_mem_nil x))

set_option maxRecDepth 10000 in
/-- C6 witness: a run whose only discovery call fails yields exactly the one
re-tagged diagnostic, and the file is still processed by the rule pass. -/
theorem loading_failure_isolated_witness :
    xErr.rule ≠ Rule.loadingFailure ∧
    (xRunner.runT xCollab 2).emitErrs = [{ xErr with rule := Rule.loadingFailure }] ∧
    (∀ m ∈ (xRunner.runT xCollab 2).emitErrs, m.rule = Rule.loadingFailure) ∧
    (xRunner.runT xCollab 2).rulesEvaluated = (xRunner.runT xCollab 2).processed := by
  have h := loading_failure_isolated xRunner xCollab 2
  exact ⟨by decide, by decide, h.2.1, h.2.2.2⟩

/-- C7.  With children drawn from a finite universe `U`, fuel `U.length + 1`
reaches the discovery fixpoint: every task in the final task set has been
expanded, the expansion log is duplicate-free (each distinct `(path, kind)`
node is asked exactly once per call), and only task-set members were
expanded — a cyclic reference graph does not loop. -/
theorem discovery_terminates_once_per_node (r : Runner) (c : Collab) (U : List PB)
    (hnd : r.playbooks.Nodup)
    (hseed : ∀ pb ∈ r.playbooks, pb ∈ U)
    (hcl : ∀ arg children, c.findChildren arg r.playbook_dir = .ok children →
      ∀ ch ∈ children, (ch.path, ch.type) ∈ U) :
    (∀ pb ∈ (r.runT c (U.length + 1)).runnerAfter.playbooks,
      pb ∈ (r.runT c (U.length + 1)).expanded) ∧
    (r.runT c (U.length + 1)).expanded.Nodup ∧
    (∀ pb ∈ (r.runT c (U.length + 1)).expanded,
      pb ∈ (r.runT c (U.length + 1)).runnerAfter.playbooks) := by
  have h := emitLoop_closure c r.exclude_paths r.playbook_dir U hcl (U.length + 1)
    (emitInit r c) hnd List.nodup_nil (fun x hx => absurd hx (List.not_mem_nil x))
    (fun x hx => hseed x hx) (by omega)
  rw [runT_pbsAfter, runT_expanded]
  exact h

set_option maxRecDepth 10000 in
/-- C7 witness: the cyclic two-node graph (site.yml and tasks.yml reference
each other) terminates with each node expanded exactly once. -/
theorem discovery_terminates_once_per_node_witness :
    (∀ pb ∈ (wRunner.runT wCollab (wUniverse.length + 1)).runnerAfter.playbooks,
      pb ∈ (wRunner.runT wCollab (wUniverse.length + 1)).expanded) ∧
    (wRunner.runT wCollab (wUniverse.length + 1)).expanded.Nodup ∧
    (∀ pb ∈ (wRunner.runT wCollab (wUniverse.length + 1)).expanded,
      pb ∈ (wRunner.runT wCollab (wUniverse.length + 1)).runnerAfter.playbooks) := by
  refine discovery_terminates_once_per_node wRunner wCollab wUniverse (by decide) (by decide) ?_
  intro arg children h ch hch
  unfold wCollab at h
  simp only at h
  split_ifs at h with h1 h2
  · cases h
    rcases List.mem_singleton.mp hch with h3
    subst h3
    subst h1
    decide
  · cases h
    rcases List.mem_singleton.mp hch with h3
    subst h3
    subst h2
    decide
  · cases h
    cases hch

/-- C2 counterexample: with a failing discovery collaborator and a meta root,
a second `run()` on the same Runner returns exactly the same non-empty result
as the first — the loading-failure diagnostic is re-reported because the
discovery loop restarts with a fresh `visited` set, so the second result is
neither empty nor strictly smaller. -/
theorem rerun_rereports_loading_failure :
    ((xRunner.runT xCollab 2).runnerAfter.runT xCollab 2).result =
      (xRunner.runT xCollab 2).result ∧
    (xRunner.runT xCollab 2).result ≠ [] := by
  exact ⟨by decide, by decide⟩

/-- C2 (amended).  Across two consecutive `run()` calls on the same Runner no
file is syntax-checked or rule-evaluated twice: a run only processes files
not yet in the checked set, and the second run's processed files are
path-disjoint from the first run's. -/
theorem rerun_skips_checked_files (r : Runner) (c : Collab) (fuel1 fuel2 : Nat) :
    (∀ f ∈ (r.runT c fuel1).processed, f.path ∉ r.checked_files) ∧
    (∀ f2 ∈ ((r.runT c fuel1).runnerAfter.runT c fuel2).processed,
      ∀ f1 ∈ (r.runT c fuel1).processed, f2.path ≠ f1.path) := by
  constructor
  · intro f hf
    rw [runT_processed] at hf
    exact of_decide_eq_true (List.mem_filter.mp hf).2
  · intro f2 hf2 f1 hf1 heq
    have h1 : f1.path ∈ (r.runT c fuel1).runnerAfter.checked_files := by
      rw [runT_checkedAfter]
      exact mem_insertAll_right _ _ (List.mem_map.mpr ⟨f1, hf1, rfl⟩)
    have h2 : f2.path ∉ (r.runT c fuel1).runnerAfter.checked_files := by
      rw [runT_processed] at hf2
      exact of_decide_eq_true (List.mem_filter.mp hf2).2
    rw [heq] at h2
    exact h2 h1

set_option maxRecDepth 10000 in
/-- C2 witness: a first (fuel-starved) run processes the root, a second run
processes only the newly discovered child — never the same path twice. -/
theorem rerun_skips_checked_files_witness :
    wSeed ∈ (wRunner.runT wCollab 0).processed ∧
    wTasksChild ∈ ((wRunner.runT wCollab 0).runnerAfter.runT wCollab 3).processed ∧
    wTasksChild.path ≠ wSeed.path :=
  ⟨by decide, by decide,
    (rerun_skips_checked_files wRunner wCollab 0 3).2 wTasksChild (by decide) wSeed (by decide)⟩

/-- C8 counterexample: two diagnostics that agree on every compared field and
differ only in `details` are both kept by set-deduplication, and the stable
sort then orders them by accumulation order — so the sorted output is not
independent of the iteration order. -/
theorem order_tie_breaks_by_accumulation_order :
    List.Perm [dA, dB] [dB, dA] ∧ sortResults [dA, dB] ≠ sortResults [dB, dA] := by
  exact ⟨by decide, by decide⟩

/-- C8 (amended).  The sorted, deduplicated result is a permutation-invariant
multiset: permuting the accumulation order permutes nothing but order-tied
elements, and when no two distinct diagnostics tie on the compared key
`(filename, line, column, rule-id, message)` the output sequences are
identical. -/
theorem sortResults_accumulation_order (l₁ l₂ : List MatchError) (h : List.Perm l₁ l₂) :
    List.Perm (sortResults l₁) (sortResults l₂) ∧
    ((∀ a ∈ l₁, ∀ b ∈ l₁, diagCmp a b = .eq → a = b) →
      sortResults l₁ = sortResults l₂) := by
  constructor
  · exact ((sortResults_perm l₁).trans (dedupKeepFirst_perm h)).trans (sortResults_perm l₂).symm
  · intro hinj
    exact sortResults_perm_congr h hinj

set_option maxRecDepth 10000 in
/-- C8 witness: for diagnostics with distinct compared keys the output is
independent of accumulation order. -/
theorem sortResults_accumulation_order_witness :
    sortResults [xErr, dA] = sortResults [dA, xErr] :=
  (sortResults_accumulation_order [xErr, dA] [dA, xErr] (by decide)).2 (by decide)

/-- C9.  The checked-files set only grows (no entry is ever removed and every
processed path is added), the store is untouched at every other reference, a
Runner constructed with a supplied set adopts that very reference with the
store unchanged, and any other holder of the same reference sees all
additions. -/
theorem checked_files_monotone_shared (r : RunnerS) (c : Collab) (fuel : Nat) (st : Store) :
    (∀ p ∈ st.getRef r.checkedRef, p ∈ (r.runS c fuel st).2.2.getRef r.checkedRef) ∧
    (r.runS c fuel st).2.2.getRef r.checkedRef =
      insertAll (st.getRef r.checkedRef)
        (((r.toRunner st).runT c fuel).processed.map (fun f => f.path)) ∧
    (∀ m, m ≠ r.checkedRef → (r.runS c fuel st).2.2.getRef m = st.getRef m) ∧
    (∀ r2 : RunnerS, r2.checkedRef = r.checkedRef →
      (r2.toRunner (r.runS c fuel st).2.2).checked_files =
        (r.runS c fuel st).2.2.getRef r.checkedRef) ∧
    (∀ (isdir : Bool) (dn ap : String → String) (ex : List String) (pb : String) (n : Nat),
      (RunnerS.init isdir dn ap ex pb (some n) st).1.checkedRef = n ∧
      (RunnerS.init isdir dn ap ex pb (some n) st).2 = st) := by
  have hset : (r.runS c fuel st).2.2.getRef r.checkedRef =
      insertAll (st.getRef r.checkedRef)
        (((r.toRunner st).runT c fuel).processed.map (fun f => f.path)) := by
    show (if r.checkedRef = r.checkedRef then _ else _) = _
    rw [if_pos rfl, runT_checkedAfter]
    rfl
  refine ⟨?_, hset, ?_, ?_, ?_⟩
  · intro p hp
    rw [hset]
    exact mem_insertAll_left hp
  · intro m hm
    show (if m = r.checkedRef then _ else _) = _
    rw [if_neg hm]
    rfl
  · intro r2 h2
    show (r.runS c fuel st).2.2.getRef r2.checkedRef = _
    rw [h2]
  · intro isdir dn ap ex pb n
    exact ⟨rfl, rfl⟩

set_option maxRecDepth 10000 in
/-- C9 witness: a store-level Runner adopting reference 5 leaves reference 4
alone and grows the shared set at 5 by the processed paths. -/
theorem checked_files_monotone_shared_witness :
    wRunnerS.checkedRef = 5 ∧
    (wRunnerS.runS wCollab 3 wStore).2.2.getRef 4 = wStore.getRef 4 ∧
    (wRunnerS.runS wCollab 3 wStore).2.2.getRef wRunnerS.checkedRef =
      insertAll (wStore.getRef wRunnerS.checkedRef)
        (((wRunnerS.toRunner wStore).runT wCollab 3).processed.map (fun f => f.path)) := by
  have h := checked_files_monotone_shared wRunnerS wCollab 3 wStore
  exact ⟨by decide, h.2.2.1 4 (by decide), h.2.1⟩

end AnsibleLint
